import Mathlib

/-!
Verification of `check_assets.py`, a static-site asset-usage checker.

The program is embedded shallowly:

* A file-system snapshot is a `List FSFile`; an `FSFile` carries its path
  relative to the project root (as a list of components), its decoded text
  content, and its byte size.
* The enumerators (`find_all_assets`, `find_all_md_files`,
  `find_all_liquid_files`, `find_all_scss_files`) are the recursive walk and
  the glob calls of the source, modelled as filters over the snapshot:
  `os.walk(assets_dir)` yields exactly the files whose relative path starts
  with the component "assets" and has at least two components;
  `root.glob("*.md")` yields the root-level files named `*.md`;
  `root.glob("_includes/**/*.liquid")` (and `_layouts`) yields the `.liquid`
  files at least one level below those directories; likewise `_sass/**/*.scss`.
* Python's `pattern in content` substring test is `containsSub` on the
  character lists of the strings.
* `pathlib`'s `name`, `stem` and `suffix` attributes are `fileName` and
  `stemSuffix` (the `rfind`-based split of CPython's `PurePath`).
* `str.lower()` is `strToLower`; only ASCII letters matter here because every
  comparison target is a pure-ASCII extension string.
* The per-asset scanning loops of `check_asset_usage`, with their
  break-on-first-pattern, are `scanFiles`; the classification loop of `main`
  is `classify` (Python iterates `sorted(assets)`, a stable sort by path
  string, modelled by `List.insertionSort` on the joined path).
* The printed aggregates of `main` are collected in `Report`; `run` returns
  the untouched snapshot next to the report, reflecting that the program
  performs no writes.
-/

/-! ## Strings and substring containment -/

/-- Is `p` an initial segment of `c`?  (Both strings as character lists.) -/
def beginsWith : List Char → List Char → Bool
  | [], _ => true
  | _ :: _, [] => false
  | p :: ps, c :: cs => p == c && beginsWith ps cs

/-- Python's `pat in content` substring test, on character lists. -/
def containsSub (pat : List Char) : List Char → Bool
  | [] => beginsWith pat []
  | c :: cs => beginsWith pat (c :: cs) || containsSub pat cs

/-- Python's `pat in content` on strings. -/
def containsStr (content pat : String) : Bool := containsSub pat.data content.data

/-- Does `s` end with `t`?  Models the `*.ext` glob filters. -/
def strEndsWith (s t : String) : Bool := t.data.isSuffixOf s.data

/-- ASCII lowercasing; models `str.lower()` for the ASCII comparisons made by
the program (every comparison target is a pure-ASCII extension string). -/
def strToLower (s : String) : String := ⟨s.data.map Char.toLower⟩

/-! ## File-system snapshot -/

/-- One file of the project snapshot: path components relative to the project
root, decoded text content, and byte size (`st_size`). -/
structure FSFile where
  path : List String
  content : String
  size : Nat
deriving DecidableEq

/-- `find_all_assets`: `os.walk` over `root/assets`, i.e. every file whose
path lies strictly below the `assets` directory. -/
def find_all_assets (fs : List FSFile) : List FSFile :=
  fs.filter (fun f => 2 ≤ f.path.length && f.path.head? == some "assets")

/-- `find_all_md_files`: `root.glob("*.md")`, the root-level markdown files. -/
def find_all_md_files (fs : List FSFile) : List FSFile :=
  fs.filter (fun f => f.path.length == 1 && strEndsWith (f.path.getLastD "") ".md")

/-- `find_all_liquid_files`: `root.glob("_includes/**/*.liquid")` followed by
`root.glob("_layouts/**/*.liquid")`. -/
def find_all_liquid_files (fs : List FSFile) : List FSFile :=
  fs.filter (fun f => f.path.head? == some "_includes" && 2 ≤ f.path.length &&
    strEndsWith (f.path.getLastD "") ".liquid") ++
  fs.filter (fun f => f.path.head? == some "_layouts" && 2 ≤ f.path.length &&
    strEndsWith (f.path.getLastD "") ".liquid")

/-- `find_all_scss_files`: `root.glob("_sass/**/*.scss")`. -/
def find_all_scss_files (fs : List FSFile) : List FSFile :=
  fs.filter (fun f => f.path.head? == some "_sass" && 2 ≤ f.path.length &&
    strEndsWith (f.path.getLastD "") ".scss")

/-! ## Path attributes -/

/-- `str()` of a relative POSIX path: components joined by "/". -/
def joinPath : List String → String
  | [] => ""
  | [x] => x
  | x :: xs => x ++ "/" ++ joinPath xs

/-- `Path.name`: the final path component. -/
def fileName (f : FSFile) : String := f.path.getLastD ""

/-- Index of the last '.' in a character list (Python's `str.rfind`). -/
def lastDotIdx (cs : List Char) : Option Nat :=
  (List.range cs.length).foldl (fun acc i => if cs.getD i ' ' == '.' then some i else acc) none

/-- CPython's `PurePath.stem` / `PurePath.suffix` pair: split the name at the
last dot when that dot is neither the first nor the last character, otherwise
the suffix is empty. -/
def stemSuffix (name : String) : String × String :=
  match lastDotIdx name.data with
  | some i =>
    if 0 < i ∧ i < name.data.length - 1 then (⟨name.data.take i⟩, ⟨name.data.drop i⟩)
    else (name, "")
  | none => (name, "")

/-- The fixed image-extension list of `check_asset_usage`. -/
def imageExtensions : List String := [".png", ".jpg", ".jpeg", ".gif", ".svg", ".webp"]

/-- `asset.suffix` of the source. -/
def assetSuffix (a : FSFile) : String := (stemSuffix (fileName a)).2

/-- `asset.stem` of the source. -/
def assetStem (a : FSFile) : String := (stemSuffix (fileName a)).1

/-- The test `asset.suffix.lower() in [".png", ...]` of the source. -/
def isImageAsset (a : FSFile) : Bool := decide (strToLower (assetSuffix a) ∈ imageExtensions)

/-- The pattern list built by `check_asset_usage`: relative path, the same
with a leading slash, the bare file name, and (for image extensions) the
stem. -/
def assetPatterns (asset : FSFile) : List String :=
  if isImageAsset asset then
    [joinPath asset.path, "/" ++ joinPath asset.path, fileName asset, assetStem asset]
  else
    [joinPath asset.path, "/" ++ joinPath asset.path, fileName asset]

/-! ## Scanning -/

/-- The inner `for pattern in patterns: if pattern in content: ...; break`
loop: the file is recorded exactly when some pattern occurs in its content. -/
def fileMatches (asset f : FSFile) : Bool :=
  (assetPatterns asset).any (fun p => containsStr f.content p)

/-- `str(md_file.name)`: how a markdown file is recorded. -/
def mdRecordName (f : FSFile) : String := fileName f

/-- `str(file.relative_to(file.parent.parent))`: the last two path
components, how a liquid or scss file is recorded. -/
def relToGrandparent (f : FSFile) : String := joinPath (f.path.drop (f.path.length - 2))

/-- One category loop of `check_asset_usage`: append the record of every file
some pattern of which occurs in its content (the `break` only leaves the
pattern loop, so later files are still scanned). -/
def scanFiles (asset : FSFile) (record : FSFile → String) (files : List FSFile) : List String :=
  files.foldl (fun acc f => if fileMatches asset f then acc ++ [record f] else acc) []

/-- The `references` dict of `check_asset_usage`. -/
structure References where
  md : List String
  liquid : List String
  scss : List String
deriving DecidableEq

/-- `check_asset_usage` (the `assets_dir` argument of the source is folded
into the model: `asset.relative_to(assets_dir.parent)` is the path relative
to the project root, already stored in `FSFile.path`). -/
def check_asset_usage (asset : FSFile) (md_files liquid_files scss_files : List FSFile) :
    References :=
  { md := scanFiles asset mdRecordName md_files
    liquid := scanFiles asset relToGrandparent liquid_files
    scss := scanFiles asset relToGrandparent scss_files }

/-- `any(refs.values())` of `main`: some category list is non-empty. -/
def hasRefs (r : References) : Bool := !r.md.isEmpty || !r.liquid.isEmpty || !r.scss.isEmpty

/-! ## Classification (`main`) -/

/-- Ordering used by `sorted(assets)`: paths compare as their strings. -/
def pathLE (a b : FSFile) : Prop := joinPath a.path ≤ joinPath b.path

instance : DecidableRel pathLE :=
  fun a b => inferInstanceAs (Decidable (joinPath a.path ≤ joinPath b.path))

/-- `sorted(assets)`: a stable sort of the enumerated assets by path. -/
def sortedAssets (fs : List FSFile) : List FSFile :=
  List.insertionSort pathLE (find_all_assets fs)

/-- One iteration of the classification loop of `main`. -/
def classifyStep (chk : FSFile → References) (acc : List (FSFile × References) × List FSFile)
    (asset : FSFile) : List (FSFile × References) × List FSFile :=
  if hasRefs (chk asset) then (acc.1 ++ [(asset, chk asset)], acc.2)
  else (acc.1, acc.2 ++ [asset])

/-- The call `check_asset_usage(asset, md_files, liquid_files, scss_files,
assets_dir)` made by `main`, with the enumerated file lists of the snapshot. -/
def checkInSnapshot (fs : List FSFile) (asset : FSFile) : References :=
  check_asset_usage asset (find_all_md_files fs) (find_all_liquid_files fs)
    (find_all_scss_files fs)

/-- The classification loop of `main`: the `used_assets` and `unused_assets`
lists after the `for asset in sorted(assets)` loop. -/
def classify (fs : List FSFile) : List (FSFile × References) × List FSFile :=
  (sortedAssets fs).foldl (classifyStep (checkInSnapshot fs)) ([], [])

/-- The `total_size` accumulation of `main`'s reporting loop. -/
def total_size (fs : List FSFile) : Nat :=
  (classify fs).2.foldl (fun acc asset => acc + asset.size) 0

/-- The aggregates printed by `main`. -/
structure Report where
  numAssets : Nat
  numMd : Nat
  numLiquid : Nat
  numScss : Nat
  used : List (FSFile × References)
  unused : List FSFile
  totalUnusedBytes : Nat
  numUnused : Nat
  numUsed : Nat
deriving DecidableEq

/-- The whole report of one run. -/
def mkReport (fs : List FSFile) : Report :=
  { numAssets := (find_all_assets fs).length
    numMd := (find_all_md_files fs).length
    numLiquid := (find_all_liquid_files fs).length
    numScss := (find_all_scss_files fs).length
    used := (classify fs).1
    unused := (classify fs).2
    totalUnusedBytes := total_size fs
    numUnused := (classify fs).2.length
    numUsed := (classify fs).1.length }

/-- One run of the tool: it reads the snapshot and prints a report; the
snapshot is returned unchanged because the program performs no writes. -/
def run (fs : List FSFile) : List FSFile × Report := (fs, mkReport fs)

/-! ## Spec-side simple matcher (for the refinement claim)

`simpleMatch` follows the spec's words for the claimed equivalent test:
containment of the bare file name alone, or of the stem alone for assets with
an image extension. -/

/-- The spec's single-pattern test: stem for image assets, bare file name
otherwise. -/
def simpleMatch (asset f : FSFile) : Bool :=
  if isImageAsset asset then containsStr f.content (assetStem asset)
  else containsStr f.content (fileName asset)

/-- `scanFiles` with the spec's single-pattern test. -/
def scanFilesSimple (asset : FSFile) (record : FSFile → String) (files : List FSFile) :
    List String :=
  files.foldl (fun acc f => if simpleMatch asset f then acc ++ [record f] else acc) []

/-- `check_asset_usage` with the spec's single-pattern test. -/
def check_asset_usage_simple (asset : FSFile) (md_files liquid_files scss_files : List FSFile) :
    References :=
  { md := scanFilesSimple asset mdRecordName md_files
    liquid := scanFilesSimple asset relToGrandparent liquid_files
    scss := scanFilesSimple asset relToGrandparent scss_files }

/-- `checkInSnapshot` with the spec's single-pattern test. -/
def checkInSnapshotSimple (fs : List FSFile) (asset : FSFile) : References :=
  check_asset_usage_simple asset (find_all_md_files fs) (find_all_liquid_files fs)
    (find_all_scss_files fs)

/-- The classification loop with the spec's single-pattern test. -/
def classifySimple (fs : List FSFile) : List (FSFile × References) × List FSFile :=
  (sortedAssets fs).foldl (classifyStep (checkInSnapshotSimple fs)) ([], [])

/-! ## Byte-level reading

Modelled from the spec: the source obtains each file's content with
`read_text(errors="ignore")`, whose implementation (CPython's UTF-8 codec
with the "ignore" error handler) is not part of this repository.  Following
the spec's words, content is best-effort decoded text: valid UTF-8 sequences
are decoded and invalid byte sequences are ignored rather than failing. -/

/-- Decode one UTF-8 sequence starting at byte `b0` with the following bytes
in `rest`: `some (c, k)` decodes to `c` consuming `k` further bytes of
`rest`; `none` means `b0` starts no valid sequence. -/
def utf8DecodeStep (b0 : Nat) (rest : List Nat) : Option (Char × Nat) :=
  if b0 < 0x80 then some (Char.ofNat b0, 0)
  else if 0xC2 ≤ b0 ∧ b0 ≤ 0xDF then
    match rest with
    | b1 :: _ =>
      if 0x80 ≤ b1 ∧ b1 ≤ 0xBF then
        some (Char.ofNat ((b0 - 0xC0) * 0x40 + (b1 - 0x80)), 1)
      else none
    | [] => none
  else if 0xE0 ≤ b0 ∧ b0 ≤ 0xEF then
    match rest with
    | b1 :: b2 :: _ =>
      if (0x80 ≤ b1 ∧ b1 ≤ 0xBF) ∧ (0x80 ≤ b2 ∧ b2 ≤ 0xBF) ∧
          0x800 ≤ (b0 - 0xE0) * 0x1000 + (b1 - 0x80) * 0x40 + (b2 - 0x80) ∧
          ((b0 - 0xE0) * 0x1000 + (b1 - 0x80) * 0x40 + (b2 - 0x80) < 0xD800 ∨
            0xE000 ≤ (b0 - 0xE0) * 0x1000 + (b1 - 0x80) * 0x40 + (b2 - 0x80)) then
        some (Char.ofNat ((b0 - 0xE0) * 0x1000 + (b1 - 0x80) * 0x40 + (b2 - 0x80)), 2)
      else none
    | _ => none
  else if 0xF0 ≤ b0 ∧ b0 ≤ 0xF4 then
    match rest with
    | b1 :: b2 :: b3 :: _ =>
      if (0x80 ≤ b1 ∧ b1 ≤ 0xBF) ∧ (0x80 ≤ b2 ∧ b2 ≤ 0xBF) ∧ (0x80 ≤ b3 ∧ b3 ≤ 0xBF) ∧
          0x10000 ≤ (b0 - 0xF0) * 0x40000 + (b1 - 0x80) * 0x1000 + (b2 - 0x80) * 0x40
            + (b3 - 0x80) ∧
          (b0 - 0xF0) * 0x40000 + (b1 - 0x80) * 0x1000 + (b2 - 0x80) * 0x40
            + (b3 - 0x80) ≤ 0x10FFFF then
        some (Char.ofNat ((b0 - 0xF0) * 0x40000 + (b1 - 0x80) * 0x1000 + (b2 - 0x80) * 0x40
          + (b3 - 0x80)), 3)
      else none
    | _ => none
  else none

/-- Modelled from the spec: best-effort UTF-8 decoding with the "ignore"
error handler — valid sequences are decoded, a byte starting no valid
sequence is skipped. -/
def decodeUtf8Ignore : List Nat → List Char
  | [] => []
  | b0 :: rest =>
    match utf8DecodeStep b0 rest with
    | some (c, k) => c :: decodeUtf8Ignore (rest.drop k)
    | none => decodeUtf8Ignore rest
termination_by l => l.length
decreasing_by
  all_goals simp [List.length_drop]
  all_goals omega

/-- Standard UTF-8 encoding of one character. -/
def utf8EncodeChar (c : Char) : List Nat :=
  if c.toNat < 0x80 then [c.toNat]
  else if c.toNat < 0x800 then [0xC0 + c.toNat / 0x40, 0x80 + c.toNat % 0x40]
  else if c.toNat < 0x10000 then
    [0xE0 + c.toNat / 0x1000, 0x80 + (c.toNat / 0x40) % 0x40, 0x80 + c.toNat % 0x40]
  else
    [0xF0 + c.toNat / 0x40000, 0x80 + (c.toNat / 0x1000) % 0x40,
      0x80 + (c.toNat / 0x40) % 0x40, 0x80 + c.toNat % 0x40]

/-- Standard UTF-8 encoding of a character list. -/
def utf8Encode (s : List Char) : List Nat := s.foldr (fun c acc => utf8EncodeChar c ++ acc) []

/-- A file whose raw bytes have not been decoded yet. -/
structure ByteFile where
  path : List String
  bytes : List Nat
  size : Nat
deriving DecidableEq

/-- `read_text(errors="ignore")`: the file with its bytes decoded
best-effort. -/
def readText (f : ByteFile) : FSFile := ⟨f.path, ⟨decodeUtf8Ignore f.bytes⟩, f.size⟩

/-- One category loop of `check_asset_usage` reading raw byte files. -/
def scanFilesBytes (asset : FSFile) (record : FSFile → String) (files : List ByteFile) :
    List String :=
  files.foldl (fun acc f => if fileMatches asset (readText f) then acc ++ [record (readText f)]
    else acc) []

/-- `check_asset_usage` reading raw byte files. -/
def check_asset_usage_bytes (asset : FSFile) (md_files liquid_files scss_files : List ByteFile) :
    References :=
  { md := scanFilesBytes asset mdRecordName md_files
    liquid := scanFilesBytes asset relToGrandparent liquid_files
    scss := scanFilesBytes asset relToGrandparent scss_files }

/-! ## Substring lemmas -/

theorem beginsWith_iff : ∀ (p c : List Char), beginsWith p c = true ↔ ∃ t, p ++ t = c
  | [], c => by simp [beginsWith]
  | p :: ps, [] => by simp [beginsWith]
  | p :: ps, c :: cs => by
    rw [beginsWith]
    simp only [Bool.and_eq_true, beq_iff_eq, beginsWith_iff ps cs]
    constructor
    · rintro ⟨rfl, t, rfl⟩
      exact ⟨t, rfl⟩
    · rintro ⟨t, h⟩
      rw [List.cons_append, List.cons.injEq] at h
      exact ⟨h.1, t, h.2⟩

theorem containsSub_iff : ∀ (p c : List Char), containsSub p c = true ↔ ∃ s t, s ++ p ++ t = c
  | p, [] => by
    rw [containsSub, beginsWith_iff]
    constructor
    · rintro ⟨t, h⟩
      exact ⟨[], t, by simpa using h⟩
    · rintro ⟨s, t, h⟩
      simp only [List.append_assoc, List.append_eq_nil] at h
      exact ⟨t, by simp [h.1, h.2.1, h.2.2]⟩
  | p, c :: cs => by
    rw [containsSub]
    simp only [Bool.or_eq_true, beginsWith_iff, containsSub_iff p cs]
    constructor
    · rintro (⟨t, h⟩ | ⟨s, t, h⟩)
      · exact ⟨[], t, by simpa using h⟩
      · exact ⟨c :: s, t, by simp [h]⟩
    · rintro ⟨s, t, h⟩
      cases s with
      | nil => exact Or.inl ⟨t, by simpa using h⟩
      | cons a s =>
        simp only [List.cons_append, List.cons.injEq, List.append_assoc] at h
        exact Or.inr ⟨s, t, by simp [h.2]⟩

/-- An occurrence of an occurrence is an occurrence. -/
theorem occursIn_trans {p q r : List Char} (h₁ : ∃ s t, s ++ p ++ t = q)
    (h₂ : ∃ s t, s ++ q ++ t = r) : ∃ s t, s ++ p ++ t = r := by
  obtain ⟨s₁, t₁, rfl⟩ := h₁
  obtain ⟨s₂, t₂, rfl⟩ := h₂
  exact ⟨s₂ ++ s₁, t₁ ++ t₂, by simp [List.append_assoc]⟩

/-- If a string containing `p` occurs in the content, `p` occurs in the
content. -/
theorem containsStr_of_occurs {content p q : String} (h : containsStr content q = true)
    (hocc : ∃ s t, s ++ p.data ++ t = q.data) : containsStr content p = true := by
  unfold containsStr at h ⊢
  rw [containsSub_iff] at h ⊢
  exact occursIn_trans hocc h

/-! ## Path occurrence lemmas -/

theorem data_append (s t : String) : (s ++ t).data = s.data ++ t.data := rfl

theorem slash_data : ("/" : String).data = ['/'] := rfl

theorem getLastD_cons_cons (x y d : String) (rest : List String) :
    List.getLastD (x :: y :: rest) d = List.getLastD (y :: rest) d := by
  simp [List.getLastD_eq_getLast?, List.getLast?]

theorem joinPath_cons_cons (x y : String) (rest : List String) :
    joinPath (x :: y :: rest) = x ++ "/" ++ joinPath (y :: rest) := rfl

/-- The final component is a suffix of the joined path. -/
theorem fileName_occurs_joinPath :
    ∀ (l : List String), ∃ s, s ++ (List.getLastD l "").data = (joinPath l).data
  | [] => ⟨[], rfl⟩
  | [x] => ⟨[], rfl⟩
  | x :: y :: rest => by
    obtain ⟨s, hs⟩ := fileName_occurs_joinPath (y :: rest)
    refine ⟨x.data ++ '/' :: s, ?_⟩
    rw [getLastD_cons_cons, joinPath_cons_cons, data_append, data_append, slash_data, ← hs]
    simp [List.append_assoc]

/-- The stem is a prefix of the name. -/
theorem stem_prefix_name (n : String) : ∃ t, (stemSuffix n).1.data ++ t = n.data := by
  unfold stemSuffix
  cases h : lastDotIdx n.data with
  | none => exact ⟨[], by simp⟩
  | some i =>
    dsimp only
    by_cases hc : 0 < i ∧ i < n.data.length - 1
    · rw [if_pos hc]
      exact ⟨n.data.drop i, List.take_append_drop i n.data⟩
    · rw [if_neg hc]
      exact ⟨[], by simp⟩

theorem occurs_stem_fileName (a : FSFile) :
    ∃ s t, s ++ (assetStem a).data ++ t = (fileName a).data := by
  obtain ⟨t, ht⟩ := stem_prefix_name (fileName a)
  exact ⟨[], t, by simpa using ht⟩

theorem occurs_fileName_joinPath (a : FSFile) :
    ∃ s t, s ++ (fileName a).data ++ t = (joinPath a.path).data := by
  obtain ⟨s, hs⟩ := fileName_occurs_joinPath a.path
  refine ⟨s, [], ?_⟩
  show s ++ (a.path.getLastD "").data ++ [] = _
  rw [List.append_nil]
  exact hs

theorem occurs_fileName_slashJoinPath (a : FSFile) :
    ∃ s t, s ++ (fileName a).data ++ t = ("/" ++ joinPath a.path).data := by
  obtain ⟨s, hs⟩ := fileName_occurs_joinPath a.path
  refine ⟨'/' :: s, [], ?_⟩
  show ('/' :: s) ++ (a.path.getLastD "").data ++ [] = ("/" ++ joinPath a.path).data
  rw [data_append, slash_data, List.append_nil, ← hs]
  simp

/-! ## Pattern-list lemmas -/

theorem joinPath_mem_assetPatterns (a : FSFile) : joinPath a.path ∈ assetPatterns a := by
  unfold assetPatterns
  split <;> simp

theorem slashJoinPath_mem_assetPatterns (a : FSFile) :
    "/" ++ joinPath a.path ∈ assetPatterns a := by
  unfold assetPatterns
  split <;> simp

theorem fileName_mem_assetPatterns (a : FSFile) : fileName a ∈ assetPatterns a := by
  unfold assetPatterns
  split <;> simp

theorem stem_mem_assetPatterns (a : FSFile) (h : isImageAsset a = true) :
    assetStem a ∈ assetPatterns a := by
  unfold assetPatterns
  rw [if_pos h]
  simp

theorem fileMatches_of_pattern {asset f : FSFile} {p : String} (hp : p ∈ assetPatterns asset)
    (hc : containsStr f.content p = true) : fileMatches asset f = true := by
  unfold fileMatches
  rw [List.any_eq_true]
  exact ⟨p, hp, hc⟩

theorem fileMatches_eq_false {asset f : FSFile}
    (h : ∀ p ∈ assetPatterns asset, containsStr f.content p = false) :
    fileMatches asset f = false := by
  unfold fileMatches
  rw [Bool.eq_false_iff]
  intro hany
  obtain ⟨p, hp, hc⟩ := List.any_eq_true.mp hany
  rw [h p hp] at hc
  exact Bool.false_ne_true hc

/-! ## Scan-loop characterization -/

theorem scanFoldAux (asset : FSFile) (record : FSFile → String) :
    ∀ (l : List FSFile) (acc : List String),
      l.foldl (fun acc f => if fileMatches asset f then acc ++ [record f] else acc) acc
        = acc ++ (l.filter (fun f => fileMatches asset f)).map record
  | [], acc => by simp
  | f :: l, acc => by
    rw [List.foldl_cons]
    by_cases h : fileMatches asset f
    · rw [if_pos h, scanFoldAux asset record l (acc ++ [record f])]
      simp [h, List.filter_cons, List.append_assoc]
    · rw [if_neg h, scanFoldAux asset record l acc]
      simp [h, List.filter_cons]

theorem scanFiles_eq (asset : FSFile) (record : FSFile → String) (files : List FSFile) :
    scanFiles asset record files = (files.filter (fun f => fileMatches asset f)).map record := by
  unfold scanFiles
  rw [scanFoldAux]
  simp

theorem scanFoldSimpleAux (asset : FSFile) (record : FSFile → String) :
    ∀ (l : List FSFile) (acc : List String),
      l.foldl (fun acc f => if simpleMatch asset f then acc ++ [record f] else acc) acc
        = acc ++ (l.filter (fun f => simpleMatch asset f)).map record
  | [], acc => by simp
  | f :: l, acc => by
    rw [List.foldl_cons]
    by_cases h : simpleMatch asset f
    · rw [if_pos h, scanFoldSimpleAux asset record l (acc ++ [record f])]
      simp [h, List.filter_cons, List.append_assoc]
    · rw [if_neg h, scanFoldSimpleAux asset record l acc]
      simp [h, List.filter_cons]

/-! ## Classification-loop characterization -/

theorem classifyFoldAux (chk : FSFile → References) :
    ∀ (l : List FSFile) (u : List (FSFile × References)) (un : List FSFile),
      l.foldl (classifyStep chk) (u, un)
        = (u ++ (l.filter (fun a => hasRefs (chk a))).map (fun a => (a, chk a)),
            un ++ l.filter (fun a => !hasRefs (chk a)))
  | [], u, un => by simp
  | a :: l, u, un => by
    rw [List.foldl_cons]
    by_cases h : hasRefs (chk a)
    · rw [show classifyStep chk (u, un) a = (u ++ [(a, chk a)], un) by
        simp [classifyStep, h]]
      rw [classifyFoldAux chk l (u ++ [(a, chk a)]) un]
      simp [h, List.filter_cons, List.append_assoc]
    · rw [show classifyStep chk (u, un) a = (u, un ++ [a]) by simp [classifyStep, h]]
      rw [classifyFoldAux chk l u (un ++ [a])]
      simp [h, List.filter_cons, List.append_assoc]

theorem classify_eq (fs : List FSFile) :
    classify fs
      = (((sortedAssets fs).filter (fun a => hasRefs (checkInSnapshot fs a))).map
          (fun a => (a, checkInSnapshot fs a)),
          (sortedAssets fs).filter (fun a => !hasRefs (checkInSnapshot fs a))) := by
  unfold classify
  rw [classifyFoldAux]
  simp

theorem mem_sortedAssets {fs : List FSFile} {a : FSFile} :
    a ∈ sortedAssets fs ↔ a ∈ find_all_assets fs :=
  (List.perm_insertionSort pathLE (find_all_assets fs)).mem_iff

theorem mem_classify_used {fs : List FSFile} {a : FSFile} {r : References} :
    (a, r) ∈ (classify fs).1
      ↔ a ∈ find_all_assets fs ∧ hasRefs (checkInSnapshot fs a) = true
          ∧ r = checkInSnapshot fs a := by
  rw [classify_eq]
  simp only [List.mem_map, List.mem_filter, mem_sortedAssets, Prod.mk.injEq]
  constructor
  · rintro ⟨x, ⟨hx, hh⟩, rfl, rfl⟩
    exact ⟨hx, hh, rfl⟩
  · rintro ⟨ha, hh, rfl⟩
    exact ⟨a, ⟨ha, hh⟩, rfl, rfl⟩

theorem mem_classify_unused {fs : List FSFile} {a : FSFile} :
    a ∈ (classify fs).2
      ↔ a ∈ find_all_assets fs ∧ hasRefs (checkInSnapshot fs a) = false := by
  rw [classify_eq]
  simp only [List.mem_filter, mem_sortedAssets, Bool.not_eq_true']

theorem hasRefs_of_mem_md {r : References} {x : String} (h : x ∈ r.md) : hasRefs r = true := by
  rcases r with ⟨md, lq, sc⟩
  cases md with
  | nil => cases h
  | cons a t => simp [hasRefs]

theorem hasRefs_of_mem_liquid {r : References} {x : String} (h : x ∈ r.liquid) :
    hasRefs r = true := by
  rcases r with ⟨md, lq, sc⟩
  cases lq with
  | nil => cases h
  | cons a t => simp [hasRefs]

theorem hasRefs_of_mem_scss {r : References} {x : String} (h : x ∈ r.scss) :
    hasRefs r = true := by
  rcases r with ⟨md, lq, sc⟩
  cases sc with
  | nil => cases h
  | cons a t => simp [hasRefs]

theorem sumSizeAux : ∀ (l : List FSFile) (acc : Nat),
    l.foldl (fun acc asset => acc + asset.size) acc = acc + (l.map FSFile.size).sum
  | [], acc => by simp
  | a :: l, acc => by
    rw [List.foldl_cons, sumSizeAux l (acc + a.size)]
    simp [Nat.add_assoc]

/-! ## Equivalence of the four-pattern test with the single-pattern test -/

theorem containsStr_false_of_occurs {content p q : String} (hp : containsStr content p = false)
    (hocc : ∃ s t, s ++ p.data ++ t = q.data) : containsStr content q = false := by
  cases hq : containsStr content q with
  | false => rfl
  | true =>
    have hcp := containsStr_of_occurs hq hocc
    rw [hp] at hcp
    exact absurd hcp (by simp)

theorem fileMatches_eq_simpleMatch (asset f : FSFile) :
    fileMatches asset f = simpleMatch asset f := by
  unfold fileMatches simpleMatch assetPatterns
  by_cases himg : isImageAsset asset = true
  · rw [if_pos himg, if_pos himg]
    simp only [List.any_cons, List.any_nil, Bool.or_false]
    cases hstem : containsStr f.content (assetStem asset) with
    | true => simp [hstem]
    | false =>
      have hname := containsStr_false_of_occurs hstem (occurs_stem_fileName asset)
      have hjp := containsStr_false_of_occurs hstem
        (occursIn_trans (occurs_stem_fileName asset) (occurs_fileName_joinPath asset))
      have hsjp := containsStr_false_of_occurs hstem
        (occursIn_trans (occurs_stem_fileName asset) (occurs_fileName_slashJoinPath asset))
      simp [hstem, hname, hjp, hsjp]
  · rw [if_neg himg, if_neg himg]
    simp only [List.any_cons, List.any_nil, Bool.or_false]
    cases hname : containsStr f.content (fileName asset) with
    | true => simp [hname]
    | false =>
      have hjp := containsStr_false_of_occurs hname (occurs_fileName_joinPath asset)
      have hsjp := containsStr_false_of_occurs hname (occurs_fileName_slashJoinPath asset)
      simp [hname, hjp, hsjp]

theorem scanFiles_eq_scanFilesSimple (asset : FSFile) (record : FSFile → String)
    (files : List FSFile) : scanFiles asset record files = scanFilesSimple asset record files := by
  unfold scanFiles scanFilesSimple
  have hfun : (fun (acc : List String) f => if fileMatches asset f then acc ++ [record f] else acc)
      = (fun acc f => if simpleMatch asset f then acc ++ [record f] else acc) := by
    funext acc f
    rw [fileMatches_eq_simpleMatch]
  rw [hfun]

theorem check_asset_usage_eq_simple (asset : FSFile) (mds liquids scsss : List FSFile) :
    check_asset_usage asset mds liquids scsss
      = check_asset_usage_simple asset mds liquids scsss := by
  unfold check_asset_usage check_asset_usage_simple
  rw [scanFiles_eq_scanFilesSimple, scanFiles_eq_scanFilesSimple, scanFiles_eq_scanFilesSimple]

theorem classify_eq_classifySimple (fs : List FSFile) : classify fs = classifySimple fs := by
  unfold classify classifySimple
  have hchk : checkInSnapshot fs = checkInSnapshotSimple fs := by
    funext asset
    unfold checkInSnapshot checkInSnapshotSimple
    exact check_asset_usage_eq_simple asset _ _ _
  rw [hchk]

/-! ## Decoder lemmas -/

theorem decode_nil : decodeUtf8Ignore [] = [] := by
  rw [decodeUtf8Ignore]

theorem decode_cons_some (b0 : Nat) (rest : List Nat) (c : Char) (k : Nat)
    (h : utf8DecodeStep b0 rest = some (c, k)) :
    decodeUtf8Ignore (b0 :: rest) = c :: decodeUtf8Ignore (rest.drop k) := by
  rw [decodeUtf8Ignore, h]

theorem decode_cons_none (b0 : Nat) (rest : List Nat)
    (h : utf8DecodeStep b0 rest = none) :
    decodeUtf8Ignore (b0 :: rest) = decodeUtf8Ignore rest := by
  rw [decodeUtf8Ignore, h]

theorem utf8Step_ascii (b0 : Nat) (rest : List Nat) (h : b0 < 0x80) :
    utf8DecodeStep b0 rest = some (Char.ofNat b0, 0) := by
  unfold utf8DecodeStep
  rw [if_pos h]

theorem utf8Step_two (b0 b1 : Nat) (rest : List Nat)
    (h0 : ¬ b0 < 0x80) (h1 : 0xC2 ≤ b0 ∧ b0 ≤ 0xDF) (h2 : 0x80 ≤ b1 ∧ b1 ≤ 0xBF) :
    utf8DecodeStep b0 (b1 :: rest)
      = some (Char.ofNat ((b0 - 0xC0) * 0x40 + (b1 - 0x80)), 1) := by
  unfold utf8DecodeStep
  rw [if_neg h0, if_pos h1]
  simp only [if_pos h2]

theorem utf8Step_three (b0 b1 b2 : Nat) (rest : List Nat)
    (h0 : ¬ b0 < 0x80) (h1 : ¬ (0xC2 ≤ b0 ∧ b0 ≤ 0xDF)) (h2 : 0xE0 ≤ b0 ∧ b0 ≤ 0xEF)
    (h3 : (0x80 ≤ b1 ∧ b1 ≤ 0xBF) ∧ (0x80 ≤ b2 ∧ b2 ≤ 0xBF) ∧
      0x800 ≤ (b0 - 0xE0) * 0x1000 + (b1 - 0x80) * 0x40 + (b2 - 0x80) ∧
      ((b0 - 0xE0) * 0x1000 + (b1 - 0x80) * 0x40 + (b2 - 0x80) < 0xD800 ∨
        0xE000 ≤ (b0 - 0xE0) * 0x1000 + (b1 - 0x80) * 0x40 + (b2 - 0x80))) :
    utf8DecodeStep b0 (b1 :: b2 :: rest)
      = some (Char.ofNat ((b0 - 0xE0) * 0x1000 + (b1 - 0x80) * 0x40 + (b2 - 0x80)), 2) := by
  unfold utf8DecodeStep
  rw [if_neg h0, if_neg h1, if_pos h2]
  simp only [if_pos h3]

theorem utf8Step_four (b0 b1 b2 b3 : Nat) (rest : List Nat)
    (h0 : ¬ b0 < 0x80) (h1 : ¬ (0xC2 ≤ b0 ∧ b0 ≤ 0xDF)) (h2 : ¬ (0xE0 ≤ b0 ∧ b0 ≤ 0xEF))
    (h3 : 0xF0 ≤ b0 ∧ b0 ≤ 0xF4)
    (h4 : (0x80 ≤ b1 ∧ b1 ≤ 0xBF) ∧ (0x80 ≤ b2 ∧ b2 ≤ 0xBF) ∧ (0x80 ≤ b3 ∧ b3 ≤ 0xBF) ∧
      0x10000 ≤ (b0 - 0xF0) * 0x40000 + (b1 - 0x80) * 0x1000 + (b2 - 0x80) * 0x40
        + (b3 - 0x80) ∧
      (b0 - 0xF0) * 0x40000 + (b1 - 0x80) * 0x1000 + (b2 - 0x80) * 0x40
        + (b3 - 0x80) ≤ 0x10FFFF) :
    utf8DecodeStep b0 (b1 :: b2 :: b3 :: rest)
      = some (Char.ofNat ((b0 - 0xF0) * 0x40000 + (b1 - 0x80) * 0x1000 + (b2 - 0x80) * 0x40
          + (b3 - 0x80)), 3) := by
  unfold utf8DecodeStep
  rw [if_neg h0, if_neg h1, if_neg h2, if_pos h3]
  simp only [if_pos h4]

theorem utf8Step_ff (rest : List Nat) : utf8DecodeStep 0xFF rest = none := by
  unfold utf8DecodeStep
  norm_num

theorem utf8Encode_cons (c : Char) (s : List Char) :
    utf8Encode (c :: s) = utf8EncodeChar c ++ utf8Encode s := rfl

theorem decode_encodeChar (c : Char) (rest : List Nat) :
    decodeUtf8Ignore (utf8EncodeChar c ++ rest) = c :: decodeUtf8Ignore rest := by
  have hvalid : c.toNat < 0xD800 ∨ (0xDFFF < c.toNat ∧ c.toNat < 0x110000) := c.valid
  by_cases h1 : c.toNat < 0x80
  · rw [show utf8EncodeChar c = [c.toNat] by unfold utf8EncodeChar; rw [if_pos h1]]
    rw [List.singleton_append]
    rw [decode_cons_some _ _ _ _ (utf8Step_ascii c.toNat rest h1)]
    rw [Char.ofNat_toNat, List.drop_zero]
  · by_cases h2 : c.toNat < 0x800
    · rw [show utf8EncodeChar c = [0xC0 + c.toNat / 0x40, 0x80 + c.toNat % 0x40] by
        unfold utf8EncodeChar; rw [if_neg h1, if_pos h2]]
      simp only [List.cons_append, List.nil_append]
      rw [decode_cons_some _ _ _ _ (utf8Step_two _ _ _ (by omega) (by omega) (by omega))]
      rw [show (0xC0 + c.toNat / 0x40 - 0xC0) * 0x40 + (0x80 + c.toNat % 0x40 - 0x80)
          = c.toNat by omega]
      rw [Char.ofNat_toNat]
      rfl
    · by_cases h3 : c.toNat < 0x10000
      · have hval2 : c.toNat < 0xD800 ∨ 0xE000 ≤ c.toNat := by
          rcases hvalid with h | ⟨h, h'⟩
          · exact Or.inl h
          · exact Or.inr (by omega)
        rw [show utf8EncodeChar c = [0xE0 + c.toNat / 0x1000, 0x80 + (c.toNat / 0x40) % 0x40,
            0x80 + c.toNat % 0x40] by
          unfold utf8EncodeChar; rw [if_neg h1, if_neg h2, if_pos h3]]
        simp only [List.cons_append, List.nil_append]
        have hid : (0xE0 + c.toNat / 0x1000 - 0xE0) * 0x1000
            + (0x80 + (c.toNat / 0x40) % 0x40 - 0x80) * 0x40 + (0x80 + c.toNat % 0x40 - 0x80)
            = c.toNat := by omega
        rw [decode_cons_some _ _ _ _ (utf8Step_three _ _ _ _ (by omega) (by omega) (by omega)
          ⟨by omega, by omega, by rw [hid]; omega, by rw [hid]; exact hval2⟩)]
        rw [hid, Char.ofNat_toNat]
        rfl
      · have hup : c.toNat < 0x110000 := by
          rcases hvalid with h | ⟨h, h'⟩
          · omega
          · exact h'
        rw [show utf8EncodeChar c = [0xF0 + c.toNat / 0x40000, 0x80 + (c.toNat / 0x1000) % 0x40,
            0x80 + (c.toNat / 0x40) % 0x40, 0x80 + c.toNat % 0x40] by
          unfold utf8EncodeChar; rw [if_neg h1, if_neg h2, if_neg h3]]
        simp only [List.cons_append, List.nil_append]
        have hid : (0xF0 + c.toNat / 0x40000 - 0xF0) * 0x40000
            + (0x80 + (c.toNat / 0x1000) % 0x40 - 0x80) * 0x1000
            + (0x80 + (c.toNat / 0x40) % 0x40 - 0x80) * 0x40
            + (0x80 + c.toNat % 0x40 - 0x80) = c.toNat := by omega
        rw [decode_cons_some _ _ _ _ (utf8Step_four _ _ _ _ _ (by omega) (by omega) (by omega)
          (by omega) ⟨by omega, by omega, by omega, by rw [hid]; omega, by rw [hid]; omega⟩)]
        rw [hid, Char.ofNat_toNat]
        rfl

theorem decode_encode_append :
    ∀ (s : List Char) (rest : List Nat),
      decodeUtf8Ignore (utf8Encode s ++ rest) = s ++ decodeUtf8Ignore rest
  | [], rest => by simp [utf8Encode]
  | c :: s, rest => by
    rw [utf8Encode_cons, List.append_assoc, decode_encodeChar, decode_encode_append s rest]
    rfl

/-! ## Concrete sample snapshots -/

/-- A sample asset: `assets/img/logo.png`. -/
def wAsset : FSFile := ⟨["assets", "img", "logo.png"], "", 2048⟩

/-- A sample markdown file referencing the sample asset. -/
def wMd : FSFile := ⟨["index.md"], "Here is ![Logo](assets/img/logo.png) inline", 64⟩

/-- A sample snapshot with one referenced asset. -/
def wFS : List FSFile := [wAsset, wMd]

/-- A sample asset nothing references. -/
def w5Asset : FSFile := ⟨["assets", "img", "orphan.png"], "", 512⟩

/-- A sample markdown file with unrelated content. -/
def w5Md : FSFile := ⟨["index.md"], "nothing relevant here", 10⟩

/-- A sample snapshot with one unreferenced asset. -/
def w5FS : List FSFile := [w5Asset, w5Md]

/-- A sample snapshot with no assets, liquid or scss directories. -/
def w7FS : List FSFile := [⟨["README.md"], "hello", 5⟩]

/-- A markdown file containing only a differently-cased variant of the
sample asset's patterns. -/
def w9File : FSFile := ⟨["index.md"], "See LOGO.PNG here", 20⟩

/-! ## Claims -/

/-- C1: every asset enumerated under the assets directory lands, after
classification, in exactly one of the final used/unused partitions: in
`used_assets` (paired with its references) when some per-category reference
list is non-empty, in `unused_assets` otherwise — never both, never
neither. -/
theorem claim_C1 (fs : List FSFile) (a : FSFile) (ha : a ∈ find_all_assets fs) :
    (hasRefs (checkInSnapshot fs a) = true →
      (a, checkInSnapshot fs a) ∈ (classify fs).1 ∧ a ∉ (classify fs).2) ∧
    (hasRefs (checkInSnapshot fs a) = false →
      a ∈ (classify fs).2 ∧ ∀ r, (a, r) ∉ (classify fs).1) ∧
    (((∃ r, (a, r) ∈ (classify fs).1) ∧ a ∉ (classify fs).2) ∨
      ((a ∈ (classify fs).2) ∧ ∀ r, (a, r) ∉ (classify fs).1)) := by
  have hused : hasRefs (checkInSnapshot fs a) = true →
      (a, checkInSnapshot fs a) ∈ (classify fs).1 ∧ a ∉ (classify fs).2 := by
    intro h
    refine ⟨mem_classify_used.mpr ⟨ha, h, rfl⟩, fun hmem => ?_⟩
    have hfalse := (mem_classify_unused.mp hmem).2
    rw [h] at hfalse
    exact absurd hfalse (by decide)
  have hunused : hasRefs (checkInSnapshot fs a) = false →
      a ∈ (classify fs).2 ∧ ∀ r, (a, r) ∉ (classify fs).1 := by
    intro h
    refine ⟨mem_classify_unused.mpr ⟨ha, h⟩, fun r hmem => ?_⟩
    have htrue := (mem_classify_used.mp hmem).2.1
    rw [h] at htrue
    exact absurd htrue (by decide)
  refine ⟨hused, hunused, ?_⟩
  cases h : hasRefs (checkInSnapshot fs a) with
  | true => exact Or.inl ⟨⟨checkInSnapshot fs a, (hused h).1⟩, (hused h).2⟩
  | false => exact Or.inr (hunused h)

theorem claim_C1_witness :
    wAsset ∈ find_all_assets wFS ∧
      (((∃ r, (wAsset, r) ∈ (classify wFS).1) ∧ wAsset ∉ (classify wFS).2) ∨
        ((wAsset ∈ (classify wFS).2) ∧ ∀ r, (wAsset, r) ∉ (classify wFS).1)) :=
  ⟨by decide, (claim_C1 wFS wAsset (by decide)).2.2⟩

/-- C2: if a markdown, template or stylesheet file's content contains the
asset's root-relative path, its bare file name, or (for image extensions)
its stem as a literal substring, the asset is classified used and that
file's record appears in that category's reference list. -/
theorem claim_C2 (fs : List FSFile) (a f : FSFile) (ha : a ∈ find_all_assets fs)
    (hmatch : containsStr f.content (joinPath a.path) = true ∨
      containsStr f.content (fileName a) = true ∨
      (isImageAsset a = true ∧ containsStr f.content (assetStem a) = true)) :
    (f ∈ find_all_md_files fs →
      ∃ r, (a, r) ∈ (classify fs).1 ∧ mdRecordName f ∈ r.md) ∧
    (f ∈ find_all_liquid_files fs →
      ∃ r, (a, r) ∈ (classify fs).1 ∧ relToGrandparent f ∈ r.liquid) ∧
    (f ∈ find_all_scss_files fs →
      ∃ r, (a, r) ∈ (classify fs).1 ∧ relToGrandparent f ∈ r.scss) := by
  have hfm : fileMatches a f = true := by
    rcases hmatch with h | h | ⟨hi, h⟩
    · exact fileMatches_of_pattern (joinPath_mem_assetPatterns a) h
    · exact fileMatches_of_pattern (fileName_mem_assetPatterns a) h
    · exact fileMatches_of_pattern (stem_mem_assetPatterns a hi) h
  refine ⟨fun hf => ?_, fun hf => ?_, fun hf => ?_⟩
  · have hrec : mdRecordName f ∈ (checkInSnapshot fs a).md := by
      show mdRecordName f ∈ scanFiles a mdRecordName (find_all_md_files fs)
      rw [scanFiles_eq]
      exact List.mem_map.mpr ⟨f, List.mem_filter.mpr ⟨hf, hfm⟩, rfl⟩
    exact ⟨checkInSnapshot fs a, mem_classify_used.mpr ⟨ha, hasRefs_of_mem_md hrec, rfl⟩, hrec⟩
  · have hrec : relToGrandparent f ∈ (checkInSnapshot fs a).liquid := by
      show relToGrandparent f ∈ scanFiles a relToGrandparent (find_all_liquid_files fs)
      rw [scanFiles_eq]
      exact List.mem_map.mpr ⟨f, List.mem_filter.mpr ⟨hf, hfm⟩, rfl⟩
    exact ⟨checkInSnapshot fs a,
      mem_classify_used.mpr ⟨ha, hasRefs_of_mem_liquid hrec, rfl⟩, hrec⟩
  · have hrec : relToGrandparent f ∈ (checkInSnapshot fs a).scss := by
      show relToGrandparent f ∈ scanFiles a relToGrandparent (find_all_scss_files fs)
      rw [scanFiles_eq]
      exact List.mem_map.mpr ⟨f, List.mem_filter.mpr ⟨hf, hfm⟩, rfl⟩
    exact ⟨checkInSnapshot fs a,
      mem_classify_used.mpr ⟨ha, hasRefs_of_mem_scss hrec, rfl⟩, hrec⟩

theorem claim_C2_witness :
    wAsset ∈ find_all_assets wFS ∧ containsStr wMd.content (joinPath wAsset.path) = true ∧
      wMd ∈ find_all_md_files wFS ∧
      (∃ r, (wAsset, r) ∈ (classify wFS).1 ∧ mdRecordName wMd ∈ r.md) :=
  ⟨by decide, by decide, by decide,
    (claim_C2 wFS wAsset wMd (by decide) (Or.inl (by decide))).1 (by decide)⟩

/-- C3: the pattern set of the reference checker is exactly the
root-relative path, the same path with a leading slash, the bare file name,
and — precisely when the lowercased extension is one of the six fixed image
extensions — the stem. -/
theorem claim_C3 (a : FSFile) (s : String) :
    s ∈ assetPatterns a ↔
      (s = joinPath a.path ∨ s = "/" ++ joinPath a.path ∨ s = fileName a ∨
        (strToLower (assetSuffix a)
            ∈ ([".png", ".jpg", ".jpeg", ".gif", ".svg", ".webp"] : List String) ∧
          s = assetStem a)) := by
  unfold assetPatterns
  by_cases h : isImageAsset a = true
  · rw [if_pos h]
    have hm : strToLower (assetSuffix a)
        ∈ ([".png", ".jpg", ".jpeg", ".gif", ".svg", ".webp"] : List String) :=
      of_decide_eq_true h
    simp [hm]
  · rw [if_neg h]
    have hm : strToLower (assetSuffix a)
        ∉ ([".png", ".jpg", ".jpeg", ".gif", ".svg", ".webp"] : List String) :=
      fun hmem => h (decide_eq_true hmem)
    simp [hm]

theorem claim_C3_witness : "logo" ∈ assetPatterns wAsset :=
  (claim_C3 wAsset "logo").mpr (by decide)

/-- C4: for each asset, scanning a single source file stops at the first
pattern found, so a file occurrence contributes at most one record, while
every later file of the category is still checked: the reference list is
exactly the record map of the matching-file filter, and never longer than
the file list. -/
theorem claim_C4 (asset : FSFile) (record : FSFile → String) (files : List FSFile) :
    scanFiles asset record files = (files.filter (fun f => fileMatches asset f)).map record ∧
      (scanFiles asset record files).length ≤ files.length := by
  refine ⟨scanFiles_eq asset record files, ?_⟩
  rw [scanFiles_eq, List.length_map]
  exact List.length_filter_le _ _

/-- C5: an asset none of whose patterns occurs in any markdown, template or
stylesheet file is classified unused, and the reported unused byte total is
the sum of the sizes of the assets so classified. -/
theorem claim_C5 (fs : List FSFile) (a : FSFile) (ha : a ∈ find_all_assets fs)
    (hnone : ∀ f ∈ find_all_md_files fs ++ find_all_liquid_files fs ++ find_all_scss_files fs,
      ∀ p ∈ assetPatterns a, containsStr f.content p = false) :
    a ∈ (classify fs).2 ∧ total_size fs = ((classify fs).2.map FSFile.size).sum := by
  have hscan : ∀ (record : FSFile → String) (files : List FSFile),
      (∀ f ∈ files, fileMatches a f = false) → scanFiles a record files = [] := by
    intro record files hall
    rw [scanFiles_eq]
    rw [List.filter_eq_nil_iff.mpr (fun f hf => by simp [hall f hf])]
    rfl
  constructor
  · refine mem_classify_unused.mpr ⟨ha, ?_⟩
    have h1 : (checkInSnapshot fs a).md = [] :=
      hscan mdRecordName (find_all_md_files fs) (fun f hf =>
        fileMatches_eq_false (hnone f
          (List.mem_append.mpr (Or.inl (List.mem_append.mpr (Or.inl hf))))))
    have h2 : (checkInSnapshot fs a).liquid = [] :=
      hscan relToGrandparent (find_all_liquid_files fs) (fun f hf =>
        fileMatches_eq_false (hnone f
          (List.mem_append.mpr (Or.inl (List.mem_append.mpr (Or.inr hf))))))
    have h3 : (checkInSnapshot fs a).scss = [] :=
      hscan relToGrandparent (find_all_scss_files fs) (fun f hf =>
        fileMatches_eq_false (hnone f (List.mem_append.mpr (Or.inr hf))))
    unfold hasRefs
    rw [h1, h2, h3]
    rfl
  · unfold total_size
    rw [sumSizeAux]
    simp

theorem claim_C5_witness :
    w5Asset ∈ (classify w5FS).2 ∧ total_size w5FS = ((classify w5FS).2.map FSFile.size).sum :=
  claim_C5 w5FS w5Asset (by decide) (by decide)

/-- C6: a run is a pure function of the file-system snapshot and leaves it
unchanged, so a second run over the state left by a first run yields the
identical report and classifications. -/
theorem claim_C6 (fs : List FSFile) : (run fs).1 = fs ∧ run ((run fs).1) = run fs :=
  ⟨rfl, rfl⟩

/-- C7: when the assets directory, both template directories, or the
stylesheet directory contain no files, the corresponding enumerator returns
the empty list rather than failing, and with no assets the rest of the run
proceeds to an empty classification and zero totals. -/
theorem claim_C7 (fs : List FSFile) :
    ((∀ f ∈ fs, f.path.head? ≠ some "assets") →
      find_all_assets fs = [] ∧ classify fs = ([], []) ∧ total_size fs = 0 ∧
        (mkReport fs).numAssets = 0) ∧
    ((∀ f ∈ fs, f.path.head? ≠ some "_includes" ∧ f.path.head? ≠ some "_layouts") →
      find_all_liquid_files fs = []) ∧
    ((∀ f ∈ fs, f.path.head? ≠ some "_sass") → find_all_scss_files fs = []) := by
  refine ⟨fun h => ?_, fun h => ?_, fun h => ?_⟩
  · have hassets : find_all_assets fs = [] := by
      unfold find_all_assets
      refine List.filter_eq_nil_iff.mpr (fun f hf => ?_)
      simp only [Bool.and_eq_true, beq_iff_eq, decide_eq_true_eq, not_and]
      intro _ hh
      exact h f hf hh
    have hsorted : sortedAssets fs = [] := by rw [sortedAssets, hassets]; rfl
    have hcl : classify fs = ([], []) := by rw [classify, hsorted]; rfl
    refine ⟨hassets, hcl, ?_, ?_⟩
    · unfold total_size
      rw [hcl]
      rfl
    · unfold mkReport
      rw [hassets]
      rfl
  · unfold find_all_liquid_files
    rw [List.filter_eq_nil_iff.mpr (fun f hf => by
      simp only [Bool.and_eq_true, beq_iff_eq, not_and]
      intro hh
      exact absurd hh.1 (h f hf).1),
      List.filter_eq_nil_iff.mpr (fun f hf => by
      simp only [Bool.and_eq_true, beq_iff_eq, not_and]
      intro hh
      exact absurd hh.1 (h f hf).2)]
    rfl
  · unfold find_all_scss_files
    refine List.filter_eq_nil_iff.mpr (fun f hf => ?_)
    simp only [Bool.and_eq_true, beq_iff_eq, not_and]
    intro hh
    exact absurd hh.1 (h f hf)

theorem claim_C7_witness :
    find_all_assets w7FS = [] ∧ find_all_liquid_files w7FS = [] ∧
      find_all_scss_files w7FS = [] :=
  ⟨((claim_C7 w7FS).1 (by decide)).1, (claim_C7 w7FS).2.1 (by decide),
    (claim_C7 w7FS).2.2 (by decide)⟩

/-- C8: reading source files never fails the run: content is best-effort
decoded text — cleanly encoded text decodes to itself even when followed by
arbitrary bytes, an invalid byte between two cleanly encoded pieces is
ignored — and the scan over raw byte files is total and agrees with the
scan over their decoded contents. -/
theorem claim_C8 :
    (∀ (s : List Char) (rest : List Nat),
      decodeUtf8Ignore (utf8Encode s ++ rest) = s ++ decodeUtf8Ignore rest) ∧
    (∀ (s₁ s₂ : List Char),
      decodeUtf8Ignore (utf8Encode s₁ ++ 0xFF :: utf8Encode s₂) = s₁ ++ s₂) ∧
    (∀ (asset : FSFile) (md_files liquid_files scss_files : List ByteFile),
      check_asset_usage_bytes asset md_files liquid_files scss_files
        = check_asset_usage asset (md_files.map readText) (liquid_files.map readText)
            (scss_files.map readText)) := by
  have hscan : ∀ (asset : FSFile) (record : FSFile → String) (files : List ByteFile),
      scanFilesBytes asset record files = scanFiles asset record (files.map readText) := by
    intro asset record files
    unfold scanFilesBytes scanFiles
    rw [List.foldl_map]
  refine ⟨decode_encode_append, fun s₁ s₂ => ?_, fun asset md lq sc => ?_⟩
  · rw [decode_encode_append, decode_cons_none _ _ (utf8Step_ff _)]
    rw [show utf8Encode s₂ = utf8Encode s₂ ++ [] from (List.append_nil _).symm,
      decode_encode_append, decode_nil, List.append_nil]
  · unfold check_asset_usage_bytes check_asset_usage
    rw [hscan, hscan, hscan]

/-- C9: pattern matching is case-sensitive substring containment: a file
containing only a differently-cased variant of an asset's patterns and no
exact-case occurrence records no reference, and with only such files the
asset has no references at all (so it is classified unused). -/
theorem claim_C9 (a f : FSFile)
    (_hcase : ∃ p ∈ assetPatterns a, containsStr (strToLower f.content) (strToLower p) = true)
    (hexact : ∀ p ∈ assetPatterns a, containsStr f.content p = false) :
    fileMatches a f = false ∧
    ∀ (md_files liquid_files scss_files : List FSFile),
      (∀ g ∈ md_files ++ liquid_files ++ scss_files, g = f) →
      hasRefs (check_asset_usage a md_files liquid_files scss_files) = false := by
  have hfm : fileMatches a f = false := fileMatches_eq_false hexact
  refine ⟨hfm, fun mds lqs scs hall => ?_⟩
  have hscan : ∀ (record : FSFile → String) (files : List FSFile), (∀ g ∈ files, g = f) →
      scanFiles a record files = [] := by
    intro record files hf
    rw [scanFiles_eq]
    rw [List.filter_eq_nil_iff.mpr (fun g hg => by rw [hf g hg]; simp [hfm])]
    rfl
  unfold check_asset_usage hasRefs
  rw [hscan _ _ (fun g hg => hall g (List.mem_append.mpr (Or.inl (List.mem_append.mpr
      (Or.inl hg))))),
    hscan _ _ (fun g hg => hall g (List.mem_append.mpr (Or.inl (List.mem_append.mpr
      (Or.inr hg))))),
    hscan _ _ (fun g hg => hall g (List.mem_append.mpr (Or.inr hg)))]
  rfl

theorem claim_C9_witness :
    fileMatches wAsset w9File = false ∧
      hasRefs (check_asset_usage wAsset [w9File] [] []) = false :=
  ⟨(claim_C9 wAsset w9File ⟨"logo.png", by decide, by decide⟩ (by decide)).1,
    (claim_C9 wAsset w9File ⟨"logo.png", by decide, by decide⟩ (by decide)).2
      [w9File] [] [] (by decide)⟩

/-- C10: the four-pattern containment test is equivalent — for the per-file
match, the reference lists, and the whole classification — to testing the
bare file name alone (the stem alone for image assets), because the file
name occurs inside both path patterns and the stem inside the file name. -/
theorem claim_C10 (fs : List FSFile) (asset f : FSFile)
    (md_files liquid_files scss_files : List FSFile) :
    fileMatches asset f = simpleMatch asset f ∧
    check_asset_usage asset md_files liquid_files scss_files
      = check_asset_usage_simple asset md_files liquid_files scss_files ∧
    classify fs = classifySimple fs :=
  ⟨fileMatches_eq_simpleMatch asset f,
    check_asset_usage_eq_simple asset md_files liquid_files scss_files,
    classify_eq_classifySimple fs⟩
